import Mathlib

/-!
Verification of the name-availability checker in `src/check.rs` of
`cargo-avail`.

Strings are modelled as `List Char` (Lean `Char` is a Unicode scalar value,
as is Rust `char`, so `str::chars()` of a Rust string is exactly such a
list).  Rust's byte-indexed slicing (`&s[..k]`) is modelled at the byte
level via the UTF-8 width of each character, so that out-of-bounds and
non-boundary slices — which panic in Rust — are modelled as `none`.
The HTTP registry is modelled as an oracle from the request URL to the
response outcome; `check_name` takes the oracle as a parameter, and a
`none` result models a panic.
-/

/-- Per-character lowercasing.  Rust's `str::to_lowercase` performs Unicode
case mapping character by character; on ASCII characters (the only ones a
validated crate name can contain) it maps `A`..`Z` to `a`..`z` and leaves
everything else unchanged, which is what this function does.  Non-ASCII
case mappings are outside the model. -/
def lowerChar (c : Char) : Char :=
  if 65 ≤ c.toNat ∧ c.toNat ≤ 90 then Char.ofNat (c.toNat + 32) else c

/-- Rust's `str::replace (a, b)` for single-character `a` and `b`:
replaces every occurrence of `a` by `b`. -/
def replaceAll (a b : Char) (s : List Char) : List Char :=
  s.map (fun c => if c = a then b else c)

/-- The function `canon_crate_name` from `src/check.rs`:
`name.to_lowercase().replace('-', "_")`. -/
def canon_crate_name (s : List Char) : List Char :=
  replaceAll ('-') ('_') (s.map lowerChar)

/-- Rust's `char::is_ascii_digit`: `'0'..='9'`. -/
def is_ascii_digit (c : Char) : Prop := 48 ≤ c.toNat ∧ c.toNat ≤ 57

instance (c : Char) : Decidable (is_ascii_digit c) :=
  inferInstanceAs (Decidable (_ ∧ _))

/-- Rust's `char::is_ascii_alphabetic`: `'A'..='Z'` or `'a'..='z'`. -/
def is_ascii_alphabetic (c : Char) : Prop :=
  (65 ≤ c.toNat ∧ c.toNat ≤ 90) ∨ (97 ≤ c.toNat ∧ c.toNat ≤ 122)

instance (c : Char) : Decidable (is_ascii_alphabetic c) :=
  inferInstanceAs (Decidable (_ ∨ _))

/-- Rust's `char::is_ascii_alphanumeric`. -/
def is_ascii_alphanumeric (c : Char) : Prop :=
  is_ascii_alphabetic c ∨ is_ascii_digit c

instance (c : Char) : Decidable (is_ascii_alphanumeric c) :=
  inferInstanceAs (Decidable (_ ∨ _))

/-- The condition on each non-leading character in `validate_crate_name`:
`ch.is_ascii_alphanumeric() || ch == '-' || ch == '_'`. -/
def allowedChar (c : Char) : Prop :=
  is_ascii_alphanumeric c ∨ c = '-' ∨ c = '_'

instance (c : Char) : Decidable (allowedChar c) :=
  inferInstanceAs (Decidable (_ ∨ _))

namespace validation

/-- The constant `MAX_NAME_LENGTH` from the vendored `validation` module. -/
def MAX_NAME_LENGTH : Nat := 64

/-- The `InvalidCrateName` enum from the vendored `validation` module. -/
inductive InvalidCrateName where
  | TooLong (name : List Char)
  | Empty
  | StartWithDigit (name : List Char)
  | Start (first_char : Char) (name : List Char)
  | Char (ch : Char) (name : List Char)
  deriving DecidableEq, Repr

/-- The `for ch in chars` loop of `validate_crate_name`: every remaining
character must be ASCII alphanumeric, `-`, or `_`; the first offending
character is reported. -/
def checkRest (name : List Char) : List Char → Except InvalidCrateName Unit
  | [] => Except.ok ()
  | ch :: rest =>
    if allowedChar ch then checkRest name rest
    else Except.error (InvalidCrateName.Char ch name)

/-- The function `validate_crate_name` from the vendored `validation` module, checks in
source order: character count over the maximum, emptiness, first character
(digit, then non-alphabetic), then the remaining characters. -/
def validate_crate_name (name : List Char) : Except InvalidCrateName Unit :=
  if name.length > MAX_NAME_LENGTH then Except.error (InvalidCrateName.TooLong name)
  else if name.isEmpty then Except.error InvalidCrateName.Empty
  else
    match name with
    | [] => Except.ok ()
    | ch :: rest =>
      if is_ascii_digit ch then Except.error (InvalidCrateName.StartWithDigit name)
      else if ¬ is_ascii_alphabetic ch then Except.error (InvalidCrateName.Start ch name)
      else checkRest name rest

end validation

/-- The list `RESERVED_NAMES` from `src/check.rs`: Rust compiler internals followed
by Windows device names. -/
def RESERVED_NAMES : List (List Char) :=
  (["alloc", "arena", "ast", "builtins", "collections", "compiler-builtins",
    "compiler-rt", "compiletest", "core", "coretest", "debug", "driver",
    "flate", "fmt_macros", "grammar", "graphviz", "macro", "macros",
    "proc_macro", "rbml", "rust-installer", "rustbook", "rustc",
    "rustc_back", "rustc_borrowck", "rustc_driver", "rustc_llvm",
    "rustc_resolve", "rustc_trans", "rustc_typeck", "rustdoc", "rustllvm",
    "rustuv", "serialize", "std", "syntax", "test", "unicode",
    "nul", "con", "prn", "aux", "com0", "com1", "com2", "com3", "com4",
    "com5", "com6", "com7", "com8", "com9", "lpt0", "lpt1", "lpt2", "lpt3",
    "lpt4", "lpt5", "lpt6", "lpt7", "lpt8", "lpt9"] : List String).map
    String.data

/-- The set `RESERVED_SET` from `src/check.rs`: each static reserved name,
canonicalized.  The Rust `HashSet` is modelled as the underlying list;
membership coincides. -/
def RESERVED_SET : List (List Char) := RESERVED_NAMES.map canon_crate_name

/-- The `Availability` enum from `src/check.rs`. -/
inductive Availability where
  | Available
  | Taken
  | Reserved
  deriving DecidableEq, Repr

/-- The `CheckError` enum from `src/check.rs`.  The boxed `ureq::Error`
carried by `IndexLookup` is modelled as an abstract numeric identifier. -/
inductive CheckError where
  | InvalidName (e : validation.InvalidCrateName)
  | IndexLookup (e : Nat)
  deriving DecidableEq, Repr

/-- Outcome of one `client.agent.get(&url).call()` in `check_name`:
a success response, an HTTP 404 status error, or any other error
(carrying an abstract identifier of the underlying `ureq::Error`). -/
inductive IndexResponse where
  | success
  | notFound404
  | otherError (e : Nat)
  deriving DecidableEq, Repr

/-- Rust's `char::len_utf8`: the number of bytes of the character's
UTF-8 encoding. -/
def len_utf8 (c : Char) : Nat :=
  if c.toNat ≤ 0x7F then 1
  else if c.toNat ≤ 0x7FF then 2
  else if c.toNat ≤ 0xFFFF then 3
  else 4

/-- Rust's `str::len`: the length of the string in bytes. -/
def byteLen (s : List Char) : Nat := (s.map len_utf8).sum

/-- Rust slice `&s[..k]` (first `k` bytes): `some` of the characters in
the first `k` bytes when `k` is a character boundary within the string,
`none` (a panic) otherwise. -/
def sliceTo (s : List Char) (k : Nat) : Option (List Char) :=
  match k, s with
  | 0, _ => some []
  | _ + 1, [] => none
  | k + 1, c :: cs =>
    if len_utf8 c ≤ k + 1 then (sliceTo cs (k + 1 - len_utf8 c)).map (fun t => c :: t)
    else none

/-- Rust slice `&s[k..]` (all but the first `k` bytes): `some` of the rest
when `k` is a character boundary within the string, `none` (a panic)
otherwise. -/
def sliceFrom (s : List Char) (k : Nat) : Option (List Char) :=
  match k, s with
  | 0, s => some s
  | _ + 1, [] => none
  | k + 1, c :: cs =>
    if len_utf8 c ≤ k + 1 then sliceFrom cs (k + 1 - len_utf8 c)
    else none

/-- The function `index_path` from `src/check.rs`: the sparse-index path of a name,
by byte length.  The `unreachable!` arm for the empty name, and any
non-boundary byte slice, are modelled as `none` (a panic). -/
def index_path (name : List Char) : Option (List Char) :=
  if byteLen name = 0 then none
  else if byteLen name = 1 then some (("1/").data ++ name)
  else if byteLen name = 2 then some (("2/").data ++ name)
  else if byteLen name = 3 then
    (sliceTo name 1).map (fun p => ("3/").data ++ p ++ ("/").data ++ name)
  else
    (sliceTo name 2).bind (fun a =>
      ((sliceFrom name 2).bind (fun t => sliceTo t 2)).map (fun b =>
        a ++ ("/").data ++ b ++ ("/").data ++ name))

/-- The base of every sparse-index request URL in `check_name`. -/
def urlBase : List Char := ("https://index.crates.io/").data

/-- The spelling variants queried by `check_name` (lines 344-359 of
`src/check.rs`): the lowercased input, the canonical (all-underscore)
form when it differs, and the all-hyphen variant when it differs from
both; `flatten` on the array of options keeps the present ones in
order. -/
def variants (name : List Char) : List (List Char) :=
  let canonical := canon_crate_name name
  let lowered := name.map lowerChar
  let hyphen_variant := replaceAll ('_') ('-') canonical
  ([some lowered,
    if canonical ≠ lowered then some canonical else none,
    if hyphen_variant ≠ lowered ∧ hyphen_variant ≠ canonical then some hyphen_variant
    else none] : List (Option (List Char))).reduceOption

/-- The `for variant in variants` loop of `check_name`: query each
variant's index URL in order; a success response means `Taken`, a 404
moves on to the next variant, any other error aborts with `IndexLookup`;
if every variant answered 404 the name is `Available`.  `none` models a
panic inside `index_path`. -/
def lookupVariants (reg : List Char → IndexResponse) :
    List (List Char) → Option (Except CheckError Availability)
  | [] => some (Except.ok Availability.Available)
  | v :: rest =>
    match index_path v with
    | none => none
    | some path =>
      match reg (urlBase ++ path) with
      | IndexResponse.success => some (Except.ok Availability.Taken)
      | IndexResponse.notFound404 => lookupVariants reg rest
      | IndexResponse.otherError e => some (Except.error (CheckError.IndexLookup e))

/-- The function `check_name` from `src/check.rs`: validate, canonicalize and test the
reserved set, then query the index for each spelling variant.  The HTTP
client is modelled by the oracle `reg` from request URL to response
outcome; `none` models a panic. -/
def check_name (reg : List Char → IndexResponse) (name : List Char) :
    Option (Except CheckError Availability) :=
  match validation.validate_crate_name name with
  | Except.error e => some (Except.error (CheckError.InvalidName e))
  | Except.ok _ =>
    let canonical := canon_crate_name name
    if canonical ∈ RESERVED_SET then some (Except.ok Availability.Reserved)
    else lookupVariants reg (variants name)

/-- The index URL `check_name` builds for a variant, when `index_path`
does not panic on it. -/
def urlOf (v : List Char) : Option (List Char) :=
  (index_path v).map (fun p => urlBase ++ p)

/-- The per-character action of `canon_crate_name`: lowercase, then map
`-` to `_`.  `canon_crate_name` is the elementwise map of this.  -/
def canonChar (c : Char) : Char :=
  if lowerChar c = '-' then '_' else lowerChar c

/-- Two characters are separator-variants of each other: equal, or one is
`-` where the other is `_`. -/
def sepRel (x y : Char) : Prop :=
  x = y ∨ (x = '-' ∧ y = '_') ∨ (x = '_' ∧ y = '-')

instance (x y : Char) : Decidable (sepRel x y) :=
  inferInstanceAs (Decidable (_ ∨ _))


theorem lowerChar_toNat (c : Char) :
    (lowerChar c).toNat =
      if 65 ≤ c.toNat ∧ c.toNat ≤ 90 then c.toNat + 32 else c.toNat := by
  unfold lowerChar
  split
  · next h =>
    have hv : Nat.isValidChar (c.toNat + 32) := by
      have : c.toNat ≤ 90 := h.2
      left
      omega
    show (Char.ofNat (c.toNat + 32)).toNat = c.toNat + 32
    unfold Char.ofNat
    rw [dif_pos hv]
    rfl
  · rfl

theorem lowerChar_eq_self (c : Char) (h : ¬ (65 ≤ c.toNat ∧ c.toNat ≤ 90)) :
    lowerChar c = c := by
  unfold lowerChar
  exact if_neg h

theorem lowerChar_idem (c : Char) : lowerChar (lowerChar c) = lowerChar c := by
  by_cases h : 65 ≤ c.toNat ∧ c.toNat ≤ 90
  · apply lowerChar_eq_self
    rw [lowerChar_toNat, if_pos h]
    omega
  · rw [lowerChar_eq_self c h]
    exact lowerChar_eq_self c h

theorem lowerChar_ascii (c : Char) (h : c.toNat ≤ 127) : (lowerChar c).toNat ≤ 127 := by
  rw [lowerChar_toNat]
  split <;> omega

theorem canon_eq_map (s : List Char) : canon_crate_name s = s.map canonChar := by
  unfold canon_crate_name replaceAll canonChar
  rw [List.map_map]
  rfl

theorem lowerChar_canonChar (c : Char) : lowerChar (canonChar c) = canonChar c := by
  unfold canonChar
  split
  · decide
  · exact lowerChar_idem c

theorem canonChar_ne_dash (c : Char) : canonChar c ≠ '-' := by
  unfold canonChar
  split
  · decide
  · next h => exact h

theorem canonChar_idem (c : Char) : canonChar (canonChar c) = canonChar c := by
  show (if lowerChar (canonChar c) = '-' then '_' else lowerChar (canonChar c)) = canonChar c
  rw [lowerChar_canonChar, if_neg (canonChar_ne_dash c)]

/-- Claim C6: Canonicalization is idempotent: for every input string (hence in
particular every valid name), `canon_crate_name (canon_crate_name s) =
canon_crate_name s`. -/
theorem canon_crate_name_idempotent (s : List Char) :
    canon_crate_name (canon_crate_name s) = canon_crate_name s := by
  rw [canon_eq_map, canon_eq_map, List.map_map]
  have h : canonChar ∘ canonChar = canonChar := funext canonChar_idem
  rw [h]

/-- Claim C7: Canonicalization is separator-blind: if `a` and `b` agree at
every position except that one may use `-` where the other uses `_`, then
`canon_crate_name a = canon_crate_name b`. -/
theorem canon_crate_name_separator_blind (a b : List Char)
    (h : List.Forall₂ sepRel a b) : canon_crate_name a = canon_crate_name b := by
  rw [canon_eq_map, canon_eq_map]
  induction h with
  | nil => rfl
  | cons hr _ ih =>
    simp only [List.map_cons, ih, List.cons.injEq, and_true]
    rcases hr with rfl | ⟨rfl, rfl⟩ | ⟨rfl, rfl⟩
    · rfl
    · decide
    · decide

/-- Witness for C7 at `"foo-bar"` / `"foo_bar"`. -/
theorem canon_crate_name_separator_blind_witness :
    canon_crate_name (("foo-bar").data) = canon_crate_name (("foo_bar").data) :=
  canon_crate_name_separator_blind _ _ (by decide)

/-- Claim C8: For every input string, the canonical form is fully lowercased
(lowercasing it again is the identity) and contains no hyphen. -/
theorem canon_crate_name_lowercase_no_hyphen (s : List Char) :
    (canon_crate_name s).map lowerChar = canon_crate_name s ∧
      ('-') ∉ canon_crate_name s := by
  constructor
  · rw [canon_eq_map, List.map_map]
    have h : lowerChar ∘ canonChar = canonChar := funext lowerChar_canonChar
    rw [h]
  · intro hmem
    rw [canon_eq_map] at hmem
    rcases List.mem_map.mp hmem with ⟨c, _, hc⟩
    exact canonChar_ne_dash c hc

theorem digit_not_alpha (c : Char) (h : is_ascii_digit c) : ¬ is_ascii_alphabetic c := by
  unfold is_ascii_digit at h
  unfold is_ascii_alphabetic
  rintro (⟨h1, h2⟩ | ⟨h1, h2⟩) <;> omega

theorem checkRest_ok_iff (name rest : List Char) :
    validation.checkRest name rest = Except.ok () ↔ ∀ c ∈ rest, allowedChar c := by
  induction rest with
  | nil => simp [validation.checkRest]
  | cons c cs ih =>
    by_cases h : allowedChar c
    · simp [validation.checkRest, h, ih]
    · simp [validation.checkRest, h]

theorem checkRest_first_bad (name pre : List Char) (bad : Char) (post : List Char)
    (hpre : ∀ c ∈ pre, allowedChar c) (hbad : ¬ allowedChar bad) :
    validation.checkRest name (pre ++ bad :: post) =
      Except.error (validation.InvalidCrateName.Char bad name) := by
  induction pre with
  | nil => simp [validation.checkRest, hbad]
  | cons c cs ih =>
    have hc : allowedChar c := hpre c (by simp)
    simp only [List.cons_append, validation.checkRest, if_pos hc]
    exact ih (fun x hx => hpre x (by simp [hx]))

theorem validate_too_long (name : List Char)
    (h : validation.MAX_NAME_LENGTH < name.length) :
    validation.validate_crate_name name =
      Except.error (validation.InvalidCrateName.TooLong name) := by
  unfold validation.validate_crate_name
  rw [if_pos h]

theorem validate_nil :
    validation.validate_crate_name [] = Except.error validation.InvalidCrateName.Empty := by
  rfl

theorem validate_cons (ch : Char) (rest : List Char)
    (hlen : (ch :: rest).length ≤ validation.MAX_NAME_LENGTH) :
    validation.validate_crate_name (ch :: rest) =
      if is_ascii_digit ch then
        Except.error (validation.InvalidCrateName.StartWithDigit (ch :: rest))
      else if ¬ is_ascii_alphabetic ch then
        Except.error (validation.InvalidCrateName.Start ch (ch :: rest))
      else validation.checkRest (ch :: rest) rest := by
  unfold validation.validate_crate_name
  rw [if_neg (Nat.not_lt.mpr hlen)]
  rfl

theorem validate_ok_iff (name : List Char) :
    validation.validate_crate_name name = Except.ok () ↔
      ∃ c cs, name = c :: cs ∧ name.length ≤ validation.MAX_NAME_LENGTH ∧
        is_ascii_alphabetic c ∧ ∀ x ∈ cs, allowedChar x := by
  cases name with
  | nil => simp [validate_nil]
  | cons ch rest =>
    by_cases hlen : (ch :: rest).length ≤ validation.MAX_NAME_LENGTH
    · rw [validate_cons ch rest hlen]
      by_cases hd : is_ascii_digit ch
      · have hna := digit_not_alpha ch hd
        simp [if_pos hd, hna]
      · rw [if_neg hd]
        by_cases ha : is_ascii_alphabetic ch
        · rw [if_neg (by simpa using ha)]
          rw [checkRest_ok_iff]
          constructor
          · intro h
            exact ⟨ch, rest, rfl, hlen, ha, h⟩
          · rintro ⟨c, cs, heq, -, -, hall⟩
            cases heq
            exact hall
        · rw [if_pos ha]
          constructor
          · intro h
            cases h
          · rintro ⟨c, cs, heq, -, hc, -⟩
            cases heq
            exact (ha hc).elim
    · rw [validate_too_long _ (Nat.not_le.mp hlen)]
      constructor
      · intro h
        cases h
      · rintro ⟨c, cs, heq, hle, -, -⟩
        exact (hlen hle).elim

/-- Claim C3: The validator accepts exactly the non-empty strings of at most
`MAX_NAME_LENGTH` characters whose first character is ASCII-alphabetic and
whose remaining characters are ASCII-alphanumeric, `-`, or `_`; and each
rejection carries the specific reason: empty → `Empty`; over-long →
`TooLong`; leading digit → `StartWithDigit`; other non-alphabetic leading
character → `Start` with that character; and a disallowed interior
character → `Char` with the first such character. -/
theorem validate_crate_name_spec (name : List Char) :
    (validation.validate_crate_name name = Except.ok () ↔
      ∃ c cs, name = c :: cs ∧ name.length ≤ validation.MAX_NAME_LENGTH ∧
        is_ascii_alphabetic c ∧ ∀ x ∈ cs, allowedChar x)
    ∧ (name = [] →
        validation.validate_crate_name name = Except.error validation.InvalidCrateName.Empty)
    ∧ (validation.MAX_NAME_LENGTH < name.length →
        validation.validate_crate_name name =
          Except.error (validation.InvalidCrateName.TooLong name))
    ∧ (∀ c cs, name = c :: cs → name.length ≤ validation.MAX_NAME_LENGTH →
        is_ascii_digit c →
        validation.validate_crate_name name =
          Except.error (validation.InvalidCrateName.StartWithDigit name))
    ∧ (∀ c cs, name = c :: cs → name.length ≤ validation.MAX_NAME_LENGTH →
        ¬ is_ascii_digit c → ¬ is_ascii_alphabetic c →
        validation.validate_crate_name name =
          Except.error (validation.InvalidCrateName.Start c name))
    ∧ (∀ c pre bad post, name = c :: (pre ++ bad :: post) →
        name.length ≤ validation.MAX_NAME_LENGTH → is_ascii_alphabetic c →
        (∀ x ∈ pre, allowedChar x) → ¬ allowedChar bad →
        validation.validate_crate_name name =
          Except.error (validation.InvalidCrateName.Char bad name)) := by
  refine ⟨validate_ok_iff name, ?_, ?_, ?_, ?_, ?_⟩
  · rintro rfl
    exact validate_nil
  · exact validate_too_long name
  · rintro c cs rfl hlen hd
    rw [validate_cons c cs hlen, if_pos hd]
  · rintro c cs rfl hlen hd ha
    rw [validate_cons c cs hlen, if_neg hd, if_pos ha]
  · rintro c pre bad post rfl hlen ha hpre hbad
    rw [validate_cons c _ hlen, if_neg (fun hd => digit_not_alpha c hd ha),
      if_neg (by simpa using ha)]
    exact checkRest_first_bad _ pre bad post hpre hbad

/-- Witness for C3 at `"foo+bar"`: the interior `+` is reported. -/
theorem validate_crate_name_spec_witness :
    validation.validate_crate_name (("foo+bar").data) =
      Except.error (validation.InvalidCrateName.Char ('+') (("foo+bar").data)) :=
  (validate_crate_name_spec (("foo+bar").data)).2.2.2.2.2 ('f') (("oo").data) ('+')
    (("bar").data) (by decide) (by decide) (by decide) (by decide) (by decide)

/-- Claim C9: A string of more than `MAX_NAME_LENGTH` characters is rejected
as `TooLong` regardless of its content: the length check runs before the
emptiness, leading-character and interior-character checks. -/
theorem validate_too_long_first (name : List Char)
    (h : validation.MAX_NAME_LENGTH < name.length) :
    validation.validate_crate_name name =
      Except.error (validation.InvalidCrateName.TooLong name) :=
  validate_too_long name h

/-- Witness for C9: 65 copies of `+` — every character is invalid and the
string has no valid leading character, yet the reason is `TooLong`. -/
theorem validate_too_long_first_witness :
    validation.validate_crate_name (List.replicate 65 ('+')) =
      Except.error (validation.InvalidCrateName.TooLong (List.replicate 65 ('+'))) :=
  validate_too_long_first (List.replicate 65 ('+')) (by decide)

theorem len_utf8_ascii (c : Char) (h : c.toNat ≤ 127) : len_utf8 c = 1 := by
  unfold len_utf8
  rw [if_pos (by omega)]

theorem byteLen_ascii (s : List Char) (h : ∀ c ∈ s, c.toNat ≤ 127) :
    byteLen s = s.length := by
  induction s with
  | nil => rfl
  | cons c cs ih =>
    simp only [byteLen, List.map_cons, List.sum_cons, List.length_cons] at *
    rw [len_utf8_ascii c (h c (by simp)), ih (fun x hx => h x (by simp [hx]))]
    omega

theorem sliceTo_ascii (s : List Char) (k : Nat) (ha : ∀ c ∈ s, c.toNat ≤ 127)
    (hk : k ≤ s.length) : sliceTo s k = some (s.take k) := by
  induction s generalizing k with
  | nil =>
    have hz : k = 0 := Nat.le_zero.mp hk
    subst hz
    rfl
  | cons c cs ih =>
    cases k with
    | zero => rfl
    | succ k =>
      have h1 : len_utf8 c = 1 := len_utf8_ascii c (ha c (by simp))
      simp only [sliceTo, h1]
      rw [if_pos (by omega)]
      have hk' : k + 1 - 1 = k := rfl
      rw [hk', ih k (fun x hx => ha x (by simp [hx])) (by simpa using hk)]
      rfl

theorem sliceFrom_ascii (s : List Char) (k : Nat) (ha : ∀ c ∈ s, c.toNat ≤ 127)
    (hk : k ≤ s.length) : sliceFrom s k = some (s.drop k) := by
  induction s generalizing k with
  | nil =>
    have hz : k = 0 := Nat.le_zero.mp hk
    subst hz
    rfl
  | cons c cs ih =>
    cases k with
    | zero => rfl
    | succ k =>
      have h1 : len_utf8 c = 1 := len_utf8_ascii c (ha c (by simp))
      simp only [sliceFrom, h1]
      rw [if_pos (by omega)]
      have hk' : k + 1 - 1 = k := rfl
      rw [hk', ih k (fun x hx => ha x (by simp [hx])) (by simpa using hk)]
      rfl

theorem index_path_len1 (s : List Char) (ha : ∀ c ∈ s, c.toNat ≤ 127)
    (h : s.length = 1) : index_path s = some (("1/").data ++ s) := by
  have hb : byteLen s = 1 := by rw [byteLen_ascii s ha, h]
  unfold index_path
  rw [hb]
  rfl

theorem index_path_len2 (s : List Char) (ha : ∀ c ∈ s, c.toNat ≤ 127)
    (h : s.length = 2) : index_path s = some (("2/").data ++ s) := by
  have hb : byteLen s = 2 := by rw [byteLen_ascii s ha, h]
  unfold index_path
  rw [hb]
  rfl

theorem index_path_len3 (s : List Char) (ha : ∀ c ∈ s, c.toNat ≤ 127)
    (h : s.length = 3) :
    index_path s = some (("3/").data ++ s.take 1 ++ ("/").data ++ s) := by
  have hb : byteLen s = 3 := by rw [byteLen_ascii s ha, h]
  unfold index_path
  rw [hb, sliceTo_ascii s 1 ha (by omega)]
  simp [List.append_assoc]

theorem index_path_len4 (s : List Char) (ha : ∀ c ∈ s, c.toNat ≤ 127)
    (h : 4 ≤ s.length) :
    index_path s =
      some (s.take 2 ++ ("/").data ++ (s.drop 2).take 2 ++ ("/").data ++ s) := by
  have hb : byteLen s = s.length := byteLen_ascii s ha
  have hd : ∀ c ∈ s.drop 2, c.toNat ≤ 127 := fun c hc => ha c (List.mem_of_mem_drop hc)
  unfold index_path
  rw [hb, if_neg (by omega), if_neg (by omega), if_neg (by omega), if_neg (by omega)]
  simp [sliceTo_ascii s 2 ha (by omega), sliceFrom_ascii s 2 ha (by omega),
    sliceTo_ascii (s.drop 2) 2 hd (by simp; omega), List.append_assoc]

theorem index_path_some (s : List Char) (hne : s ≠ [])
    (ha : ∀ c ∈ s, c.toNat ≤ 127) : ∃ r, index_path s = some r := by
  have hpos : 1 ≤ s.length := by
    cases s with
    | nil => exact absurd rfl hne
    | cons c cs => simp
  rcases Nat.lt_or_ge s.length 4 with h4 | h4
  · interval_cases h : s.length
    · exact ⟨_, index_path_len1 s ha h⟩
    · exact ⟨_, index_path_len2 s ha h⟩
    · exact ⟨_, index_path_len3 s ha h⟩
  · exact ⟨_, index_path_len4 s ha h4⟩

/-- Claim C5: The sharding rule of `index_path` on ASCII names: length 1 →
`1/<name>`, length 2 → `2/<name>`, length 3 → `3/<first>/<name>`, length
≥ 4 → `<first two>/<next two>/<name>`; concretely `a ↦ 1/a`, `ab ↦ 2/ab`,
`abc ↦ 3/a/abc`, `serde ↦ se/rd/serde`. -/
theorem index_path_spec :
    (∀ s : List Char, (∀ c ∈ s, c.toNat ≤ 127) →
      (s.length = 1 → index_path s = some (("1/").data ++ s)) ∧
      (s.length = 2 → index_path s = some (("2/").data ++ s)) ∧
      (s.length = 3 → index_path s = some (("3/").data ++ s.take 1 ++ ("/").data ++ s)) ∧
      (4 ≤ s.length →
        index_path s =
          some (s.take 2 ++ ("/").data ++ (s.drop 2).take 2 ++ ("/").data ++ s)))
    ∧ index_path (("a").data) = some (("1/a").data)
    ∧ index_path (("ab").data) = some (("2/ab").data)
    ∧ index_path (("abc").data) = some (("3/a/abc").data)
    ∧ index_path (("serde").data) = some (("se/rd/serde").data) := by
  refine ⟨fun s ha => ⟨index_path_len1 s ha, index_path_len2 s ha,
    index_path_len3 s ha, index_path_len4 s ha⟩, ?_, ?_, ?_, ?_⟩ <;> rfl

/-- Witness for C5 at the length-5 name `tokio`. -/
theorem index_path_spec_witness :
    index_path (("tokio").data) = some (("to/ki/tokio").data) :=
  ((index_path_spec.1 (("tokio").data) (by decide)).2.2.2 (by decide)).trans (by decide)

theorem allowedChar_ascii (c : Char) (h : allowedChar c) : c.toNat ≤ 127 := by
  unfold allowedChar is_ascii_alphanumeric is_ascii_alphabetic is_ascii_digit at h
  rcases h with ((⟨h1, h2⟩ | ⟨h1, h2⟩) | ⟨h1, h2⟩) | rfl | rfl
  · omega
  · omega
  · omega
  · decide
  · decide

theorem validate_ok_nonempty (name : List Char)
    (h : validation.validate_crate_name name = Except.ok ()) : name ≠ [] := by
  rcases (validate_ok_iff name).mp h with ⟨c, cs, rfl, -, -, -⟩
  simp

theorem validate_ok_ascii (name : List Char)
    (h : validation.validate_crate_name name = Except.ok ()) :
    ∀ c ∈ name, c.toNat ≤ 127 := by
  rcases (validate_ok_iff name).mp h with ⟨c, cs, rfl, -, ha, hall⟩
  intro x hx
  rcases List.mem_cons.mp hx with rfl | hx
  · unfold is_ascii_alphabetic at ha
    rcases ha with ⟨h1, h2⟩ | ⟨h1, h2⟩ <;> omega
  · exact allowedChar_ascii x (hall x hx)

theorem canonChar_ascii (c : Char) (h : c.toNat ≤ 127) : (canonChar c).toNat ≤ 127 := by
  unfold canonChar
  split
  · decide
  · exact lowerChar_ascii c h

theorem variants_mem (name v : List Char) (hv : v ∈ variants name) :
    v = name.map lowerChar ∨ v = canon_crate_name name ∨
      v = replaceAll ('_') ('-') (canon_crate_name name) := by
  simp only [variants] at hv
  split_ifs at hv <;>
    simp only [List.reduceOption_cons_of_some, List.reduceOption_cons_of_none,
      List.reduceOption_nil, List.mem_cons, List.not_mem_nil, or_false] at hv <;>
    tauto

theorem variants_wf (name : List Char)
    (h : validation.validate_crate_name name = Except.ok ()) :
    ∀ v ∈ variants name, v ≠ [] ∧ ∀ c ∈ v, c.toNat ≤ 127 := by
  have hne := validate_ok_nonempty name h
  have ha := validate_ok_ascii name h
  intro v hv
  rcases variants_mem name v hv with rfl | rfl | rfl
  · refine ⟨by simpa using hne, ?_⟩
    intro c hc
    rcases List.mem_map.mp hc with ⟨x, hx, rfl⟩
    exact lowerChar_ascii x (ha x hx)
  · rw [canon_eq_map]
    refine ⟨by simpa using hne, ?_⟩
    intro c hc
    rcases List.mem_map.mp hc with ⟨x, hx, rfl⟩
    exact canonChar_ascii x (ha x hx)
  · rw [canon_eq_map]
    unfold replaceAll
    refine ⟨by simpa using hne, ?_⟩
    intro c hc
    rcases List.mem_map.mp hc with ⟨x, hx, rfl⟩
    rcases List.mem_map.mp hx with ⟨y, hy, rfl⟩
    have := canonChar_ascii y (ha y hy)
    split
    · decide
    · exact this

theorem urlOf_eq (v p : List Char) (hp : index_path v = some p) :
    urlOf v = some (urlBase ++ p) := by
  rw [urlOf, hp]
  rfl

theorem lookupVariants_append_404 (reg : List Char → IndexResponse)
    (pre rest : List (List Char))
    (hwf : ∀ v ∈ pre, v ≠ [] ∧ ∀ c ∈ v, c.toNat ≤ 127)
    (h404 : ∀ v ∈ pre, ∀ u ∈ urlOf v, reg u = IndexResponse.notFound404) :
    lookupVariants reg (pre ++ rest) = lookupVariants reg rest := by
  induction pre with
  | nil => rfl
  | cons v vs ih =>
    obtain ⟨hne, ha⟩ := hwf v (by simp)
    obtain ⟨p, hp⟩ := index_path_some v hne ha
    have hu : reg (urlBase ++ p) = IndexResponse.notFound404 :=
      h404 v (by simp) (urlBase ++ p) (by rw [urlOf_eq v p hp]; rfl)
    simp only [List.cons_append, lookupVariants, hp, hu]
    exact ih (fun w hw => hwf w (by simp [hw])) (fun w hw => h404 w (by simp [hw]))

theorem lookupVariants_found (reg : List Char → IndexResponse) (v : List Char)
    (rest : List (List Char)) (hne : v ≠ []) (ha : ∀ c ∈ v, c.toNat ≤ 127)
    (hfound : ∀ u ∈ urlOf v, reg u = IndexResponse.success) :
    lookupVariants reg (v :: rest) = some (Except.ok Availability.Taken) := by
  obtain ⟨p, hp⟩ := index_path_some v hne ha
  have hu : reg (urlBase ++ p) = IndexResponse.success :=
    hfound (urlBase ++ p) (by rw [urlOf_eq v p hp]; rfl)
  simp only [lookupVariants, hp, hu]

theorem lookupVariants_err (reg : List Char → IndexResponse) (v : List Char)
    (rest : List (List Char)) (e : Nat) (hne : v ≠ []) (ha : ∀ c ∈ v, c.toNat ≤ 127)
    (herr : ∀ u ∈ urlOf v, reg u = IndexResponse.otherError e) :
    lookupVariants reg (v :: rest) =
      some (Except.error (CheckError.IndexLookup e)) := by
  obtain ⟨p, hp⟩ := index_path_some v hne ha
  have hu : reg (urlBase ++ p) = IndexResponse.otherError e :=
    herr (urlBase ++ p) (by rw [urlOf_eq v p hp]; rfl)
  simp only [lookupVariants, hp, hu]

theorem lookupVariants_all404 (reg : List Char → IndexResponse)
    (vs : List (List Char))
    (hwf : ∀ v ∈ vs, v ≠ [] ∧ ∀ c ∈ v, c.toNat ≤ 127)
    (h404 : ∀ v ∈ vs, ∀ u ∈ urlOf v, reg u = IndexResponse.notFound404) :
    lookupVariants reg vs = some (Except.ok Availability.Available) := by
  have h := lookupVariants_append_404 reg vs [] hwf h404
  rw [List.append_nil] at h
  rw [h]
  rfl

theorem lookupVariants_ne_none (reg : List Char → IndexResponse)
    (vs : List (List Char))
    (hwf : ∀ v ∈ vs, v ≠ [] ∧ ∀ c ∈ v, c.toNat ≤ 127) :
    lookupVariants reg vs ≠ none := by
  induction vs with
  | nil => simp [lookupVariants]
  | cons v rest ih =>
    obtain ⟨hne, ha⟩ := hwf v (by simp)
    obtain ⟨p, hp⟩ := index_path_some v hne ha
    simp only [lookupVariants, hp]
    cases reg (urlBase ++ p) with
    | success => simp
    | notFound404 => exact ih (fun w hw => hwf w (by simp [hw]))
    | otherError e => simp

theorem check_name_eq_invalid (reg : List Char → IndexResponse) (name : List Char)
    (e : validation.InvalidCrateName)
    (h : validation.validate_crate_name name = Except.error e) :
    check_name reg name = some (Except.error (CheckError.InvalidName e)) := by
  unfold check_name
  rw [h]

theorem check_name_eq_reserved (reg : List Char → IndexResponse) (name : List Char)
    (hok : validation.validate_crate_name name = Except.ok ())
    (hres : canon_crate_name name ∈ RESERVED_SET) :
    check_name reg name = some (Except.ok Availability.Reserved) := by
  simp only [check_name, hok, if_pos hres]

theorem check_name_eq_lookup (reg : List Char → IndexResponse) (name : List Char)
    (hok : validation.validate_crate_name name = Except.ok ())
    (hres : canon_crate_name name ∉ RESERVED_SET) :
    check_name reg name = lookupVariants reg (variants name) := by
  simp only [check_name, hok, if_neg hres]

/-- Claim C1: `check_name` is a linear short-circuit pipeline: a validation
failure yields `InvalidName` under every registry oracle (so no registry
query can influence it, and no later step runs); a valid name whose
canonical form is in `RESERVED_SET` yields `Reserved` under every oracle;
and only otherwise is the result that of the registry-lookup loop over the
spelling variants. -/
theorem check_name_pipeline (name : List Char) :
    (∀ e, validation.validate_crate_name name = Except.error e →
      ∀ reg, check_name reg name = some (Except.error (CheckError.InvalidName e)))
    ∧ (validation.validate_crate_name name = Except.ok () →
      canon_crate_name name ∈ RESERVED_SET →
      ∀ reg, check_name reg name = some (Except.ok Availability.Reserved))
    ∧ (validation.validate_crate_name name = Except.ok () →
      canon_crate_name name ∉ RESERVED_SET →
      ∀ reg, check_name reg name = lookupVariants reg (variants name)) :=
  ⟨fun e h reg => check_name_eq_invalid reg name e h,
   fun hok hres reg => check_name_eq_reserved reg name hok hres,
   fun hok hres reg => check_name_eq_lookup reg name hok hres⟩

/-- Witness for C1: `std` is reserved, under an oracle that would claim
every name exists — the registry answer is never consulted. -/
theorem check_name_pipeline_witness :
    check_name (fun _ => IndexResponse.success) (("std").data) =
      some (Except.ok Availability.Reserved) :=
  (check_name_pipeline (("std").data)).2.1 (by rfl) (by decide)
    (fun _ => IndexResponse.success)

/-- Claim C4: Reserved-set membership is canonical-form-insensitive: every
valid name whose canonical form equals the canonical form of a static
reserved entry checks as `Reserved`; in particular `Compiler-Builtins`,
`compiler_builtins`, `std` and `NUL` all do, under every oracle. -/
theorem reserved_canonical_insensitive :
    (∀ name reg, validation.validate_crate_name name = Except.ok () →
      (∃ r ∈ RESERVED_NAMES, canon_crate_name name = canon_crate_name r) →
      check_name reg name = some (Except.ok Availability.Reserved))
    ∧ (∀ reg, check_name reg (("Compiler-Builtins").data) =
        some (Except.ok Availability.Reserved))
    ∧ (∀ reg, check_name reg (("compiler_builtins").data) =
        some (Except.ok Availability.Reserved))
    ∧ (∀ reg, check_name reg (("std").data) = some (Except.ok Availability.Reserved))
    ∧ (∀ reg, check_name reg (("NUL").data) =
        some (Except.ok Availability.Reserved)) := by
  refine ⟨?_, fun reg => rfl, fun reg => rfl, fun reg => rfl, fun reg => rfl⟩
  intro name reg hok h
  obtain ⟨r, hr, hcan⟩ := h
  refine check_name_eq_reserved reg name hok ?_
  unfold RESERVED_SET
  exact List.mem_map.mpr ⟨r, hr, hcan.symm⟩

/-- Witness for C4: `Std` canonicalizes to the reserved entry `std`. -/
theorem reserved_canonical_insensitive_witness :
    check_name (fun _ => IndexResponse.success) (("Std").data) =
      some (Except.ok Availability.Reserved) :=
  reserved_canonical_insensitive.1 (("Std").data) (fun _ => IndexResponse.success)
    (by rfl) ⟨("std").data, by decide, by decide⟩

/-- Claim C2: For a valid, non-reserved name the lookup loop treats the
spelling variants in order: when every earlier variant answered 404, a
success response on a variant makes `check_name` return `Taken`
immediately, any non-404 error makes it return `IndexLookup` preserving
the underlying cause, and if every variant answers 404 it returns
`Available`. -/
theorem check_name_lookup_semantics (name : List Char)
    (reg : List Char → IndexResponse)
    (hok : validation.validate_crate_name name = Except.ok ())
    (hres : canon_crate_name name ∉ RESERVED_SET) :
    ((∀ v ∈ variants name, ∀ u ∈ urlOf v, reg u = IndexResponse.notFound404) →
      check_name reg name = some (Except.ok Availability.Available))
    ∧ (∀ pre v post, variants name = pre ++ v :: post →
      (∀ w ∈ pre, ∀ u ∈ urlOf w, reg u = IndexResponse.notFound404) →
      ((∀ u ∈ urlOf v, reg u = IndexResponse.success) →
        check_name reg name = some (Except.ok Availability.Taken))
      ∧ (∀ e, (∀ u ∈ urlOf v, reg u = IndexResponse.otherError e) →
        check_name reg name = some (Except.error (CheckError.IndexLookup e)))) := by
  have hwf := variants_wf name hok
  have hc := check_name_eq_lookup reg name hok hres
  constructor
  · intro h404
    rw [hc]
    exact lookupVariants_all404 reg (variants name) hwf h404
  · intro pre v post hsplit h404
    have hwf' : ∀ w ∈ pre, w ≠ [] ∧ ∀ c ∈ w, c.toNat ≤ 127 := by
      intro w hw
      refine hwf w ?_
      rw [hsplit]
      exact List.mem_append_left _ hw
    have hvwf : v ≠ [] ∧ ∀ c ∈ v, c.toNat ≤ 127 := by
      refine hwf v ?_
      rw [hsplit]
      exact List.mem_append_right _ (by simp)
    have hskip : lookupVariants reg (variants name) = lookupVariants reg (v :: post) := by
      rw [hsplit]
      exact lookupVariants_append_404 reg pre (v :: post) hwf' h404
    constructor
    · intro hfound
      rw [hc, hskip]
      exact lookupVariants_found reg v post hvwf.1 hvwf.2 hfound
    · intro e herr
      rw [hc, hskip]
      exact lookupVariants_err reg v post e hvwf.1 hvwf.2 herr

/-- Witness for C2: `my-crate` under the all-404 oracle is `Available`. -/
theorem check_name_lookup_semantics_witness :
    check_name (fun _ => IndexResponse.notFound404) (("my-crate").data) =
      some (Except.ok Availability.Available) :=
  (check_name_lookup_semantics (("my-crate").data)
    (fun _ => IndexResponse.notFound404) (by rfl) (by decide)).1
    (fun v _ u _ => rfl)

/-- Claim C10: `index_path` never panics on the inputs `check_name` feeds
it: every non-empty ASCII string has a defined index path (all byte
slices fall on character boundaries inside the string), and `check_name`
as a whole never reaches a panic (`none`) for any input and oracle — in
particular the `unreachable!` length-0 arm is never taken. -/
theorem index_path_no_panic :
    (∀ s : List Char, s ≠ [] → (∀ c ∈ s, c.toNat ≤ 127) →
      ∃ r, index_path s = some r)
    ∧ ∀ reg name, check_name reg name ≠ none := by
  refine ⟨index_path_some, ?_⟩
  intro reg name
  cases hval : validation.validate_crate_name name with
  | error e =>
    rw [check_name_eq_invalid reg name e hval]
    simp
  | ok u =>
    cases u
    by_cases hres : canon_crate_name name ∈ RESERVED_SET
    · rw [check_name_eq_reserved reg name hval hres]
      simp
    · rw [check_name_eq_lookup reg name hval hres]
      exact lookupVariants_ne_none reg (variants name) (variants_wf name hval)

/-- Witness for C10 at the one-character name `a`. -/
theorem index_path_no_panic_witness :
    (∃ r, index_path (("a").data) = some r) ∧
      check_name (fun _ => IndexResponse.notFound404) (("a").data) ≠ none :=
  ⟨index_path_no_panic.1 (("a").data) (by decide) (by decide),
   index_path_no_panic.2 (fun _ => IndexResponse.notFound404) (("a").data)⟩
